import Mathlib

/-
Verification development for the SQLAlchemy-serializer repository.

Strings from the Python sources are modelled as lists of characters
(`List Char`), so that Python's `str.split` / `str.join` / `str.replace`
become `List.splitOn` / `List.intercalate` / `List.filter` on `Char` lists.
Python dictionaries are modelled as association lists in insertion order,
and Python `set`s as duplicate-free lists (insertion order stands in for
the unspecified iteration order of a Python set).

The development covers two generations of the rule engine present in the
sources: the `Tree`-based engine of `sqlalchemy_serializer/lib/schema.py`
and the older text-rule engine plus traversal driver of
`sqlalchemy_serializer/serializer.py`.
-/

set_option maxHeartbeats 1000000
set_option maxRecDepth 8000

namespace SAS

abbrev Key := List Char

/-- Python truthiness of a tri-state flag (`None` is falsy, `bool` is itself).
The sources only ever store `None` or `True` in `to_include`/`to_exclude`. -/
def toBool : Option Bool → Bool
  | some b => b
  | none => false

/-- Delimiter to separate nested rules (`Rule.DELIM` / `DELIM` in the sources). -/
def DELIM : Char := '.'

/-- Prefix for negative rules (`Rule.NEGATION` / `NEGATION` in the sources). -/
def NEGATION : Char := '-'

/-- `Tree` from `lib/schema.py`: a `defaultdict` keyed by path segments,
carrying `to_include`, `to_exclude` (tri-state flags) and `is_greedy`. -/
inductive Tree where
  | node (inc exc : Option Bool) (greedy : Bool) (children : List (Key × Tree))

def Tree.to_include : Tree → Option Bool
  | .node i _ _ _ => i

def Tree.to_exclude : Tree → Option Bool
  | .node _ e _ _ => e

def Tree.is_greedy : Tree → Bool
  | .node _ _ g _ => g

def Tree.children : Tree → List (Key × Tree)
  | .node _ _ _ cs => cs

/-- `Tree()` with all constructor defaults: flags unset, greedy, no children. -/
def Tree.empty : Tree := .node none none true []

/-- Update an association list at a key, appending when absent
(the behaviour of assigning `d[k] = v` to a Python dict). -/
def setPair (cs : List (Key × Tree)) (k : Key) (v : Tree) : List (Key × Tree) :=
  match cs with
  | [] => [(k, v)]
  | (k', v') :: rest => if k' = k then (k, v) :: rest else (k', v') :: setPair rest k v

def Tree.setChild (t : Tree) (k : Key) (v : Tree) : Tree :=
  match t with
  | .node i e g cs => .node i e g (setPair cs k v)

/-- `dict.get(key)`: a pure lookup, never inserting (and the tree is returned
unchanged to make the absence of mutation part of the embedding). -/
def Tree.get (t : Tree) (k : Key) : Option Tree × Tree :=
  (t.children.lookup k, t)

/-- `tree.get(k, Tree())`: lookup with an empty-tree default, no insertion. -/
def Tree.getD (t : Tree) (k : Key) : Tree :=
  (t.children.lookup k).getD Tree.empty

/-- `defaultdict.__getitem__`: returns the existing child, or inserts a fresh
`Tree()` under the key (auto-vivification) and returns it, together with the
possibly-updated tree. -/
def Tree.getItem (t : Tree) (k : Key) : Tree × Tree :=
  match t.children.lookup k with
  | some c => (c, t)
  | none => (Tree.empty, t.setChild k Tree.empty)

/-- `Tree.to_strict` from `lib/schema.py`: set `is_greedy = False` here and
recursively on every non-empty child; children without children of their own
are skipped (`if not tree: continue`). -/
def Tree.to_strict : Tree → Tree
  | .node i e _ cs => .node i e false (strictChildren cs)
where
  strictChildren : List (Key × Tree) → List (Key × Tree)
    | [] => []
    | (k, c) :: rest =>
        (if c.children.isEmpty then (k, c) else (k, c.to_strict)) :: strictChildren rest

/-- Whether `k in node.keys()` holds for the children map. -/
def Tree.hasKey (t : Tree) (k : Key) : Bool :=
  (t.children.lookup k).isSome

/-- One step of the strictness pass inside `Tree.apply`: a child of `self`
that is not a child of `other` (`k not in node.keys()`) and has children of
its own (`subtree` is truthy) is replaced by its `to_strict` form; any other
child is kept as-is. -/
def strictifyChild (other : Tree) (kv : Key × Tree) : Key × Tree :=
  if !(other.hasKey kv.1) && !kv.2.children.isEmpty then (kv.1, kv.2.to_strict) else kv

/-- `Tree.apply` from `lib/schema.py`: merge `node`'s direct state into `self`.
If `self` is greedy and `node` is strict, every non-empty child of `self`
that is not a child of `node` is recursively forced strict; `is_greedy`
becomes the conjunction; set flags of `node` overwrite `self`'s. -/
def Tree.apply (self other : Tree) : Tree :=
  let cs :=
    if self.is_greedy && !other.is_greedy then
      self.children.map (strictifyChild other)
    else self.children
  Tree.node
    (match other.to_include with | some b => some b | none => self.to_include)
    (match other.to_exclude with | some b => some b | none => self.to_exclude)
    (other.is_greedy && self.is_greedy)
    cs

mutual

/-- `merge_trees(old, tree)` from `lib/schema.py`: `old.apply(tree)`, then for
every key of `tree`, recursively merge into `old[k]` (auto-vivified; modelled
by looking the child up with an empty default and writing the result back). -/
def merge_trees (old : Tree) : Tree → Tree
  | .node i e g cs => mergeChildren (Tree.apply old (.node i e g cs)) cs
termination_by t => sizeOf t

def mergeChildren (acc : Tree) : List (Key × Tree) → Tree
  | [] => acc
  | (k, sub) :: rest => mergeChildren (acc.setChild k (merge_trees (acc.getD k) sub)) rest
termination_by l => sizeOf l

end

/-- `Rule` from `lib/schema.py`, by fields: the negation flag and the list of
path segments. -/
structure Rule where
  is_negative : Bool
  keys : List Key
deriving DecidableEq

/-- `Rule.__init__` from `lib/schema.py`:
`is_negative = rule.startswith(NEGATION)`, then every occurrence of the
negation character is removed (`str.replace`), then the text is split on the
delimiter. There is no non-emptiness check in this version of `Rule`. -/
def Rule.parse (text : List Char) : Rule :=
  { is_negative := match text with | c :: _ => c = NEGATION | [] => false
    keys := (text.filter (fun c => c ≠ NEGATION)).splitOn DELIM }

/-- `Rule.__repr__` from `lib/schema.py`: the negation prefix (when negative)
followed by the segments re-joined with the delimiter. -/
def Rule.render (r : Rule) : List Char :=
  (if r.is_negative then [NEGATION] else []) ++ [DELIM].intercalate r.keys

/-- The per-rule chain construction inside `Schema.apply` (`lib/schema.py`
lines 86-118): walk the rule's keys against the accumulated tree `current`,
building one chain node per segment; returns `none` when the rule is dropped
(prefix under an excluded leaf, strict parent at the last segment, or a
negative leaf over an explicitly included node). -/
def chainNodes (isG neg : Bool) (current : Tree) : List Key → Option (Key × Tree)
  | [] => none
  | [k] =>
      let node := current.getD k
      if node.children.isEmpty && toBool node.to_exclude then none
      else if !current.is_greedy then none
      else if neg && toBool node.to_include then none
      else some (k, Tree.node (if neg then none else some true)
                              (if neg then some true else none) true [])
  | k :: k2 :: rest =>
      let node := current.getD k
      if node.children.isEmpty && toBool node.to_exclude then none
      else
        match chainNodes isG neg node (k2 :: rest) with
        | none => none
        | some kv =>
            some (k, Tree.node (if neg then none else some true)
                               (if neg then some true else none)
                               (if !neg && node.is_greedy then isG else true)
                               [kv])

/-- The full chain tree for one raw rule: a root `Tree()` whose `is_greedy`
is the batch flag, holding the chain built by `chainNodes`. -/
def ruleChain (tree : Tree) (isG : Bool) (raw : List Char) : Option Tree :=
  let r := Rule.parse raw
  (chainNodes isG r.is_negative tree r.keys).map
    (fun kv => Tree.node none none isG [kv])

/-- `Schema.apply(rules, is_greedy)` from `lib/schema.py`: build a batch
`rules_tree` from the accepted rules (each checked against the accumulated
tree), then merge the batch into the tree only when it is non-empty. -/
def Schema.applyRules (tree : Tree) (rules : List (List Char)) (isG : Bool) : Tree :=
  let rt := rules.foldl
    (fun acc raw =>
      match ruleChain tree isG raw with
      | some chain => merge_trees acc chain
      | none => acc)
    Tree.empty
  if rt.children.isEmpty then tree else merge_trees tree rt

/-- `Schema.update(extend, only)` from `lib/schema.py`: a greedy pass for
`extend` (when non-empty) followed by a strict pass for `only` (when
non-empty). -/
def Schema.update (t : Tree) (extendR onlyR : List (List Char)) : Tree :=
  let t1 := if extendR.isEmpty then t else Schema.applyRules t extendR true
  if onlyR.isEmpty then t1 else Schema.applyRules t1 onlyR false

/-- `Schema.is_included(key)` from `lib/schema.py`. The tree is threaded
through to record that the read path performs no mutation (`dict.get`). -/
def Schema.is_included (t : Tree) (key : Key) : Bool × Tree :=
  let (node, t1) := t.get key
  if t1.is_greedy then
    match node with
    | none => (true, t1)
    | some n => (if n.children.isEmpty then !(toBool n.to_exclude) else true, t1)
  else
    match node with
    | none => (false, t1)
    | some n => (toBool n.to_include, t1)

/-- `Schema.fork(key)` from `lib/schema.py`: `Schema(tree=self._tree[key])` —
the child is obtained through `defaultdict.__getitem__`, which inserts an
empty node when the key is absent; the possibly-mutated parent tree is the
second component. -/
def Schema.fork (t : Tree) (key : Key) : Tree × Tree :=
  t.getItem key

/-- Example tree: a fresh schema updated with `extend=("-a",)`. -/
def exNegA : Tree := Schema.update Tree.empty [("-a".toList)] []

/-- Example tree: a fresh schema updated with `extend=("-a.b",)`. -/
def exNegAB : Tree := Schema.update Tree.empty [("-a.b".toList)] []

/-- Example tree: a fresh schema updated with `only=("a",)`. -/
def exOnlyA : Tree := Schema.update Tree.empty [] [("a".toList)]

/-- Example tree: a fresh schema updated with `only=("a.b",)` and then,
in a second call, `extend=("a.c",)`. -/
def exC3 : Tree :=
  Schema.update (Schema.update Tree.empty [] [("a.b".toList)]) [("a.c".toList)] []

/-- The schema tree returned by `fork("a")` on `exC3`. -/
def exC3fork : Tree := (Schema.fork exC3 ("a".toList)).1

/-- Example tree: a fresh schema updated with `only=("",)` — the empty rule
text, which this generation of `Rule` accepts silently. -/
def exEmptyRule : Tree := Schema.update Tree.empty [] [("".toList)]

/-!
The older engine and the traversal driver of
`sqlalchemy_serializer/serializer.py`. Rules are kept as raw text
(`Rule.text`); the `Rule` class's classmethods become functions on the text.
Python `set`s of rules (equality is by text) are modelled as duplicate-free
lists; `set` iteration order, which Python leaves unspecified, is stood in
for by insertion order.
-/

namespace RS

/-- A rule's text (`Rule.text`). -/
abbrev RText := List Char

/-- `Rule.to_list`: split the text on the delimiter. -/
def to_list (s : RText) : List (List Char) := s.splitOn DELIM

/-- `Rule.to_string`: join a chain with the delimiter. -/
def to_string (chain : List (List Char)) : RText := [DELIM].intercalate chain

/-- `Rule.to_negative`: prepend the negation character. -/
def to_negative (s : RText) : RText := NEGATION :: s

/-- `Rule.to_positive`: drop the leading negation character
(`string[len(NEGATION):]`). -/
def to_positive (s : RText) : RText := s.drop 1

/-- `Rule.is_negative`: the text starts with the negation character. -/
def is_negative (s : RText) : Bool :=
  match s with | c :: _ => c = NEGATION | [] => false

/-- `Rule.negate`: make the rule negative (identity when already negative). -/
def negate (s : RText) : RText := if is_negative s then s else to_negative s

/-- `Rule.admit` in the source: make the rule positive (identity when already
positive). -/
def asPositive (s : RText) : RText := if is_negative s then to_positive s else s

/-- `Rule.to_opposite`: flip the sign of the rule. -/
def to_opposite (s : RText) : RText := if is_negative s then asPositive s else negate s

/-- `Rule.concat`: append a rule (made positive) after this one. -/
def concat (s r : RText) : RText := to_string [s, asPositive r]

/-- `Rule.__init__` from `serializer.py`: `assert text` — empty rule text is
rejected at construction time (the assertion message is not modelled). -/
def mkRule (text : RText) : Except Unit RText :=
  if text.isEmpty then .error () else .ok text

/-- `Rule.divide`: split the text into the top-level key and the remaining
chain; both parts go through the `Rule` constructor (and can therefore fail
on empty text, e.g. for a text like `"a."`), and a negative head makes the
tail negative too. -/
def divide (text : RText) : Except Unit (RText × Option RText) :=
  match to_list text with
  | [] => .error ()
  | head :: tail => do
      let h ← mkRule head
      match tail with
      | [] => .ok (h, none)
      | _ => do
          let t ← mkRule (to_string tail)
          .ok (h, some (if is_negative h then negate t else t))

/-- The schema's rule storage: a dict from head rule text to a set of nested
rule texts (`Schema.tree` in `serializer.py`). -/
abbrev RTree := List (RText × List RText)

def treeGet (tr : RTree) (k : RText) : Option (List RText) := tr.lookup k

def treeHas (tr : RTree) (k : RText) : Bool := (tr.lookup k).isSome

/-- Dict assignment: replace in place or append. -/
def treeSet (tr : RTree) (k : RText) (v : List RText) : RTree :=
  match tr with
  | [] => [(k, v)]
  | (k', v') :: rest => if k' = k then (k, v) :: rest else (k', v') :: treeSet rest k v

/-- `set.add`: no-op when the element is already present. -/
def setAdd (branch : List RText) (r : RText) : List RText :=
  if branch.contains r then branch else branch ++ [r]

/-- `Schema.update_tree` from `serializer.py`: per rule, divide into head and
tail, skip the rule when an opposite one is already in the tree, otherwise
add the tail under the head (creating the head's branch when absent). -/
def update_tree (tr : RTree) : List RText → Except Unit RTree
  | [] => .ok tr
  | r :: rest => do
      let (head, tail) ← divide r
      let skip :=
        match treeGet tr (to_opposite head) with
        | none => false
        | some branch =>
            match tail with
            | none => branch.isEmpty
            | some tl => branch.contains (to_opposite tl)
      let tr1 :=
        if skip then tr
        else
          match treeGet tr head, tail with
          | some branch, some tl => treeSet tr head (setAdd branch tl)
          | some _, none => tr
          | none, some tl => treeSet tr head [tl]
          | none, none => treeSet tr head []
      update_tree tr1 rest

/-- `Schema` from `serializer.py`: the greediness flag and the rule tree. -/
structure Schema where
  is_greedy : Bool
  tree : RTree

/-- `Schema.__init__` from `serializer.py`: every rule text goes through the
`Rule` constructor (assert on empty text); the schema is greedy unless
`only` contains at least one non-negative rule (`not bool(only - neg_rules)`);
the combined rule set is ingested via `update_tree`. -/
def schemaInit (onlyR extendR : List RText) : Except Unit Schema := do
  let only := onlyR.dedup
  let extendS := extendR.dedup
  if (only ++ extendS).any List.isEmpty then .error ()
  else
    let neg_rules := only.filter is_negative
    let rules := (only ++ extendS).dedup
    let g := (only.filter (fun r => !(neg_rules.contains r))).isEmpty
    let tr ← update_tree [] rules
    .ok ⟨g, tr⟩

/-- `Schema.is_valid` from `serializer.py`: a bare negative rule for the key
vetoes it; otherwise the key is valid when present in the tree or when the
schema is greedy. -/
def Schema.is_valid (s : Schema) (key : RText) : Bool :=
  match treeGet s.tree (to_negative key) with
  | some branch =>
      if branch.isEmpty then false else treeHas s.tree key || s.is_greedy
  | none => treeHas s.tree key || s.is_greedy

/-- `Schema.get_rules` from `serializer.py`: for a key, the union of the
branches under the key and under its negation; with no key, the whole tree
flattened (heads with non-empty branches are concatenated with each nested
rule, bare heads are kept as-is). -/
def Schema.get_rules (s : Schema) (key : Option RText) : List RText :=
  match key with
  | some k =>
      (((treeGet s.tree k).getD []) ++ ((treeGet s.tree (to_negative k)).getD [])).dedup
  | none =>
      (s.tree.foldl
        (fun acc hb =>
          match hb with
          | (head, []) => acc ++ [head]
          | (head, bunch) => acc ++ bunch.map (fun r => concat head r))
        []).dedup

/-- `Schema.get_heads` from `serializer.py`: the non-negative top-level keys. -/
def Schema.get_heads (s : Schema) : List RText :=
  ((s.tree.map Prod.fst).filter (fun k => !is_negative k)).dedup

/-- `Schema.fork` from `serializer.py`: split the rules for the key into the
`only` and `extend` keyword arguments for the forked serializer (negative
rules, and every rule under a greedy schema, go to `extend`). -/
def Schema.forkKW (s : Schema) (key : Option RText) : List RText × List RText :=
  let rules := s.get_rules key
  (rules.filter (fun r => !(is_negative r || s.is_greedy)),
   rules.filter (fun r => is_negative r || s.is_greedy))

/-- The rule-collection loop inside `Schema.merge`: each rule text goes
through the `Rule` constructor and `divide`; a rule whose tail's opposite is
already present under the opposite head is skipped. -/
def mergeCollect (tr : RTree) : List RText → List RText → Except Unit (List RText)
  | [], acc => .ok acc
  | r :: rest, acc => do
      let (head, tail) ← divide r
      let branch := (treeGet tr (to_opposite head)).getD []
      let skip :=
        match tail with
        | some tl => branch.contains (to_opposite tl)
        | none => false
      mergeCollect tr rest (if skip then acc else setAdd acc r)

/-- `Schema.merge` from `serializer.py`: a no-op when both rule sets are
empty; otherwise a non-empty `only` forces the schema strict, the combined
rules are filtered by `mergeCollect` and ingested via `update_tree`. -/
def Schema.merge (s : Schema) (onlyR extendR : List RText) : Except Unit Schema :=
  if onlyR.isEmpty && extendR.isEmpty then .ok s
  else do
    let g := if onlyR.isEmpty then s.is_greedy else false
    let res ← mergeCollect s.tree (onlyR ++ extendR) []
    let tr ← update_tree s.tree res
    .ok ⟨g, tr⟩

/-- The record-default merge step of `Serializer.__call__` (lines 62-67):
the record's `serialize_only` / `serialize_rules` are passed to
`Schema.merge` only when the schema is greedy, and replaced by empty tuples
otherwise. -/
def modelMergeStep (s : Schema) (ser_only ser_rules : List RText) : Except Unit Schema :=
  Schema.merge s (if s.is_greedy then ser_only else [])
    (if s.is_greedy then ser_rules else [])

/-- A `datetime`-like object, reduced to the two observations the driver
makes of it: `isoformat()` and `strftime(tpl)`. -/
structure PyDateTime where
  iso : RText
  strf : RText → RText

/-- `format_dt` from `lib/timezones.py`: `isoformat` when the template is
missing or empty (Python falsiness), `strftime` otherwise. -/
def format_dt (tpl : Option RText) (dt : PyDateTime) : RText :=
  match tpl with
  | none => dt.iso
  | some t => if t.isEmpty then dt.iso else dt.strf t

/-- The serializer options (`Serializer.opts` keyword arguments); the
timezone is an opaque `astimezone`-style conversion. -/
structure Opts where
  date_format : Option RText
  datetime_format : Option RText
  time_format : Option RText
  tzinfo : Option (PyDateTime → PyDateTime)

/-- A value of one of the simple types (`Serializer.simple_types`), emitted
unchanged. -/
inductive Prim where
  | pint (n : Int)
  | pstr (s : RText)
  | pbool (b : Bool)
  | pbytes (s : RText)
  | pnone

/-- The Python values the driver dispatches on. The `isinstance` priority
chain of `Serializer.__call__` is resolved into disjoint constructors
(e.g. a `datetime` value is `pdatetime`, never `pdate`). `pmodel` carries
the record's declared default rule sets and its attribute map
(`serializable_keys` with `getattr`). `pcallable` is a zero-argument
callable, invoked once before dispatch. `pbad` is a value matching no
supported kind. -/
inductive PyVal where
  | prim (p : Prim)
  | ptime (dt : PyDateTime)
  | pdatetime (dt : PyDateTime)
  | pdate (dt : PyDateTime)
  | pdict (entries : List (RText × PyVal))
  | piter (elems : List PyVal)
  | pmodel (ser_only ser_rules : List RText) (fields : List (RText × PyVal))
  | pcallable (ret : PyVal)
  | pbad

/-- The JSON-compatible output values. -/
inductive JVal where
  | prim (p : Prim)
  | jlist (l : List JVal)
  | jdict (l : List (RText × JVal))

/-- The errors the driver can raise: `IsNotSerializable`, an assertion
failure from a `Rule` constructor, or an `AttributeError` from `getattr`
when a schema head names no attribute of the record. -/
inductive SErr where
  | notSerializable
  | assertFail
  | attrFail (k : RText)

/-- `isinstance(value, self.simple_types)`. -/
def is_simple : PyVal → Bool
  | .prim _ => true
  | _ => false

/-- `Serializer.serialize_time`: format with the `time_format` template. -/
def serialize_time (opts : Opts) (dt : PyDateTime) : RText :=
  format_dt opts.time_format dt

/-- `Serializer.serialize_datetime`: convert to the local timezone when one
is configured, then format with the `datetime_format` template. -/
def serialize_datetime (opts : Opts) (dt : PyDateTime) : RText :=
  let v := match opts.tzinfo with | some f => f dt | none => dt
  format_dt opts.datetime_format v

/-- `Serializer.serialize_date`: same shape as `serialize_datetime` with the
`date_format` template. -/
def serialize_date (opts : Opts) (dt : PyDateTime) : RText :=
  let v := match opts.tzinfo with | some f => f dt | none => dt
  format_dt opts.date_format v

/-- The key set visited by `serialize_model`: the schema's non-negative
heads, extended with the record's own `serializable_keys`. -/
def modelKeys (sch : Schema) (fields : List (RText × PyVal)) : List RText :=
  (sch.get_heads ++ fields.map Prod.fst).dedup

/-- `getattr(value, k)` on the record's attribute map, packaged with the
size bound needed to justify recursing into the attribute's value. -/
def lookupAttr : (l : List (RText × PyVal)) → RText → Option {v : PyVal // sizeOf v < sizeOf l}
  | [], _ => none
  | (k', v') :: rest, k =>
      if k' = k then some ⟨v', by simp; omega⟩
      else
        match lookupAttr rest k with
        | some ⟨v, h⟩ => some ⟨v, by simp; omega⟩
        | none => none

mutual

/-- `Serializer.__call__`: build a fresh `Schema` from the call's `only` and
`extend` arguments, invoke a valid zero-argument callable once, then
dispatch on the value's kind (the `isinstance` chain). -/
def serializeCall (opts : Opts) (onlyR extendR : List RText) (v : PyVal) :
    Except SErr JVal :=
  match schemaInit onlyR extendR with
  | .error _ => .error .assertFail
  | .ok sch =>
      match v with
      | .pcallable r => callBody opts sch r
      | .prim p => callBody opts sch (.prim p)
      | .ptime dt => callBody opts sch (.ptime dt)
      | .pdatetime dt => callBody opts sch (.pdatetime dt)
      | .pdate dt => callBody opts sch (.pdate dt)
      | .pdict entries => callBody opts sch (.pdict entries)
      | .piter elems => callBody opts sch (.piter elems)
      | .pmodel so sr fields => callBody opts sch (.pmodel so sr fields)
      | .pbad => callBody opts sch .pbad
termination_by (sizeOf v, 0, 2)

/-- The `isinstance` dispatch chain of `Serializer.__call__` after the
callable unwrap: simple types pass through, temporal types are formatted,
dicts and iterables are serialized element-wise, a record merges its default
rules (only under a greedy schema) and is serialized via `serialize_model`,
and anything else (including a leftover callable) raises
`IsNotSerializable`. -/
def callBody (opts : Opts) (sch : Schema) (v : PyVal) : Except SErr JVal :=
  match v with
  | .prim p => .ok (.prim p)
  | .ptime dt => .ok (.prim (.pstr (serialize_time opts dt)))
  | .pdatetime dt => .ok (.prim (.pstr (serialize_datetime opts dt)))
  | .pdate dt => .ok (.prim (.pstr (serialize_date opts dt)))
  | .pdict entries => (serialize_dict opts sch entries).map .jdict
  | .piter elems => (serialize_iter opts sch elems).map .jlist
  | .pmodel so sr fields =>
      match modelMergeStep sch so sr with
      | .error _ => .error .assertFail
      | .ok sch2 => (serialize_model opts sch2 fields (modelKeys sch2 fields)).map .jdict
  | .pcallable _ => .error .notSerializable
  | .pbad => .error .notSerializable
termination_by (sizeOf v, 0, 1)

/-- `Serializer.fork`: simple values are returned as-is; otherwise a new
serializer is created and called with the `only`/`extend` keyword arguments
produced by `Schema.fork` for the key. -/
def forkSer (opts : Opts) (sch : Schema) (key : Option RText) (v : PyVal) :
    Except SErr JVal :=
  match v with
  | .prim p => .ok (.prim p)
  | w =>
      let kw := Schema.forkKW sch key
      serializeCall opts kw.1 kw.2 w
termination_by (sizeOf v, 0, 3)

/-- `Serializer.serialize_iter`: each element is forked with no key;
`IsNotSerializable` from an element is caught and the element skipped; any
other error propagates. -/
def serialize_iter (opts : Opts) (sch : Schema) : List PyVal → Except SErr (List JVal)
  | [] => .ok []
  | x :: rest =>
      match forkSer opts sch none x with
      | .ok j => (serialize_iter opts sch rest).map (fun l => j :: l)
      | .error .notSerializable => serialize_iter opts sch rest
      | .error e => .error e
termination_by l => (sizeOf l, 0, 0)

/-- `Serializer.serialize_dict`: keys failing `is_valid` are skipped; an
included key's value is forked with that key, and any error from the fork
propagates (there is no `try`/`except` in this method). -/
def serialize_dict (opts : Opts) (sch : Schema) :
    List (RText × PyVal) → Except SErr (List (RText × JVal))
  | [] => .ok []
  | (k, v) :: rest =>
      if sch.is_valid k then
        match forkSer opts sch (some k) v with
        | .ok j => (serialize_dict opts sch rest).map (fun l => (k, j) :: l)
        | .error e => .error e
      else serialize_dict opts sch rest
termination_by l => (sizeOf l, 0, 0)

/-- `Serializer.serialize_model`: visit the key set, skip keys failing
`is_valid`, fetch each remaining key's value with `getattr` (an absent
attribute raises) and fork it with the key; errors propagate. -/
def serialize_model (opts : Opts) (sch : Schema) (fields : List (RText × PyVal)) :
    List RText → Except SErr (List (RText × JVal))
  | [] => .ok []
  | k :: rest =>
      if sch.is_valid k then
        match lookupAttr fields k with
        | none => .error (.attrFail k)
        | some ⟨v, _⟩ =>
            match forkSer opts sch (some k) v with
            | .ok j => (serialize_model opts sch fields rest).map (fun l => (k, j) :: l)
            | .error e => .error e
      else serialize_model opts sch fields rest
termination_by keys => (sizeOf fields, keys.length, 0)

end

/-- Options with no formats and no timezone configured. -/
def defaultOpts : Opts := ⟨none, none, none, none⟩

/-- A fresh greedy schema, as produced by `Schema(only=(), extend=())`. -/
def freshSchema : Schema := ⟨true, []⟩

end RS

/-- Modelled from the spec: the depth-guarded traversal driver
(`max_serialization_depth`) is not part of the serializer sources under
`src/` — only its tests exercise it. Per the spec, the driver tracks a
recursion depth counter, incremented on every descent into a composite
value, and when the configured maximum depth is reached before descending
into a record's nested composite value, that value is omitted entirely
(the relation key is skipped) instead of being recursed into. The output of
serializing an unboundedly self-referential record (one scalar field plus
one relation back to a record of the same type) is modelled by `RJson`:
`leafObj` is the record object with the relation key omitted, `nodeObj` the
record object carrying one more level of nesting. -/
inductive RJson where
  | leafObj
  | nodeObj (child : RJson)
deriving DecidableEq

/-- Modelled from the spec: serialize the self-referential record at depth
`depth` under configured maximum depth `maxDepth`; the relation is descended
into (incrementing the counter) only while the counter is below the
maximum, and omitted otherwise. Total by construction — no error is ever
raised for depth. -/
def recSerialize (maxDepth depth : Nat) : RJson :=
  if depth < maxDepth then .nodeObj (recSerialize maxDepth (depth + 1)) else .leafObj
termination_by maxDepth - depth

/-- Number of nested relation levels present in an `RJson` output. -/
def nestingDepth : RJson → Nat
  | .leafObj => 0
  | .nodeObj c => nestingDepth c + 1

/-- Example trees for the `Tree.apply` merge theorem: a greedy tree with one
non-empty child `x` and one childless child `z`, merged with a strict,
childless, explicitly included node. -/
def c4s : Tree :=
  Tree.node none none true
    [(("x".toList), Tree.node none none true [(("y".toList), Tree.empty)]),
     (("z".toList), Tree.empty)]

/-- See `c4s`. -/
def c4o : Tree := Tree.node (some true) none false []

/-- A tree with one existing child, for the read-path frame theorems. -/
def c9tree : Tree := Tree.node none none true [(("a".toList), Tree.empty)]

/-!
Theorems. Each claim of the specification is settled by one theorem below
(plus a closed counterexample where the claim, as stated, fails on the
code). `unseal` makes the well-founded recursive definitions reducible so
that closed instances evaluate inside `decide`/`rfl`.
-/

unseal merge_trees mergeChildren in
/-- C1, counterexample: after `update(extend=("-a.b",))` the root's child
node at `"a"` exists, carries `to_exclude = true` and has children of its
own, yet `is_included("a")` returns `true` — not the negation of the node's
`to_exclude` flag as the claim asserts for every child node. -/
theorem c1_counterexample :
    (exNegAB.children.lookup ("a".toList)).map Tree.to_exclude = some (some true)
    ∧ (exNegAB.children.lookup ("a".toList)).map (fun n => n.children.isEmpty) = some false
    ∧ (Schema.is_included exNegAB ("a".toList)).1 = true := by decide

unseal merge_trees mergeChildren in
/-- C1, amended: under a greedy root, `is_included(key)` returns `true` when
the root has no child node at the key; when a child node exists and has no
children of its own it returns the negation of that node's `to_exclude`
flag; and when the child node has children it returns `true` regardless of
the node's flags. In particular, after `update(extend=("-a",))`,
`is_included("a")` is `false` and every other key stays `true`. -/
theorem c1_greedy_visibility (t : Tree) (k : Key) (hg : t.is_greedy = true) :
    ((t.children.lookup k = none → (Schema.is_included t k).1 = true)
      ∧ (∀ n, t.children.lookup k = some n → n.children = [] →
          (Schema.is_included t k).1 = !(toBool n.to_exclude))
      ∧ (∀ n, t.children.lookup k = some n → n.children ≠ [] →
          (Schema.is_included t k).1 = true))
    ∧ ((Schema.is_included exNegA ("a".toList)).1 = false
      ∧ (∀ k2, k2 ≠ ("a".toList) → (Schema.is_included exNegA k2).1 = true)) := by
  refine ⟨⟨?_, ?_, ?_⟩, by decide, ?_⟩
  · intro h
    simp [Schema.is_included, Tree.get, h, hg]
  · intro n h hc
    simp [Schema.is_included, Tree.get, h, hg, hc]
  · intro n h hc
    have hne : n.children.isEmpty = false := by
      cases hcc : n.children with
      | nil => exact absurd hcc hc
      | cons a l => rfl
    simp [Schema.is_included, Tree.get, h, hg, hne]
  · intro k2 hk2
    have hch : exNegA.children = [(("a".toList), Tree.node none (some true) true [])] := rfl
    have hb : (k2 == ['a']) = false := beq_eq_false_iff_ne.mpr hk2
    have hl : exNegA.children.lookup k2 = none := by
      rw [hch]
      simp [List.lookup, hb]
    have hgr : exNegA.is_greedy = true := rfl
    simp [Schema.is_included, Tree.get, hl, hgr]

/-- Witness for `c1_greedy_visibility` at the empty (greedy) tree. -/
theorem c1_greedy_visibility_witness :
    ((Tree.empty.children.lookup ("a".toList) = none →
        (Schema.is_included Tree.empty ("a".toList)).1 = true)
      ∧ (∀ n, Tree.empty.children.lookup ("a".toList) = some n → n.children = [] →
          (Schema.is_included Tree.empty ("a".toList)).1 = !(toBool n.to_exclude))
      ∧ (∀ n, Tree.empty.children.lookup ("a".toList) = some n → n.children ≠ [] →
          (Schema.is_included Tree.empty ("a".toList)).1 = true))
    ∧ ((Schema.is_included exNegA ("a".toList)).1 = false
      ∧ (∀ k2, k2 ≠ ("a".toList) → (Schema.is_included exNegA k2).1 = true)) :=
  c1_greedy_visibility Tree.empty ("a".toList) rfl

unseal merge_trees mergeChildren in
/-- C2: under a strict root, `is_included(key)` returns `true` exactly when
a child node exists at the key and carries `to_include = true`; a node that
exists with `to_include` unset (e.g. auto-vivified by an unrelated
operation) does not make the key included. After `update(only=("a",))` on a
fresh schema, `is_included("a")` is `true` and `is_included("b")` is
`false`. -/
theorem c2_strict_visibility (t : Tree) (k : Key) (hs : t.is_greedy = false) :
    ((Schema.is_included t k).1 = true ↔
      ∃ n, t.children.lookup k = some n ∧ n.to_include = some true)
    ∧ ((Schema.is_included exOnlyA ("a".toList)).1 = true
      ∧ (Schema.is_included exOnlyA ("b".toList)).1 = false) := by
  refine ⟨?_, by decide⟩
  cases hl : t.children.lookup k with
  | none => simp [Schema.is_included, Tree.get, hl, hs]
  | some n =>
      simp [Schema.is_included, Tree.get, hl, hs]
      cases hni : n.to_include with
      | none => simp [toBool]
      | some b => cases b <;> simp [toBool]

unseal merge_trees mergeChildren in
/-- Witness for `c2_strict_visibility` at the strict tree built by
`update(only=("a",))`. -/
theorem c2_strict_visibility_witness :
    (((Schema.is_included exOnlyA ("b".toList)).1 = true ↔
      ∃ n, exOnlyA.children.lookup ("b".toList) = some n ∧ n.to_include = some true)
    ∧ ((Schema.is_included exOnlyA ("a".toList)).1 = true
      ∧ (Schema.is_included exOnlyA ("b".toList)).1 = false)) :=
  c2_strict_visibility exOnlyA ("b".toList) (by decide)

unseal merge_trees mergeChildren in
/-- C3: after `update(only=("a.b",))` followed by `update(extend=("a.c",))`
on a fresh schema, the schema forked at `"a"` is strict, includes `"b"` and
excludes `"c"` — the `extend` rule `"a.c"` was silently ignored because its
last segment's parent in the accumulated tree is not greedy. -/
theorem c3_only_then_extend :
    exC3fork.is_greedy = false
    ∧ (Schema.is_included exC3fork ("b".toList)).1 = true
    ∧ (Schema.is_included exC3fork ("c".toList)).1 = false := by decide

/-- C4: for every pair of trees, `Tree.apply` (1) under a greedy receiver and
strict argument forces every non-empty child of the receiver that is not a
child of the argument into strict mode, keeping childless children as they
are; (2) sets `is_greedy` to the conjunction of both flags (strictness is
monotonic under merge); (3) overwrites `to_include` / `to_exclude` exactly
when the argument's corresponding flag is set, and keeps them otherwise. -/
theorem c4_apply_merge (s o : Tree) :
    ((s.is_greedy = true ∧ o.is_greedy = false) →
      ∀ k c, (k, c) ∈ s.children → o.hasKey k = false →
        ((c.children = [] → (k, c) ∈ (Tree.apply s o).children)
          ∧ (c.children ≠ [] → (k, c.to_strict) ∈ (Tree.apply s o).children)))
    ∧ (Tree.apply s o).is_greedy = (o.is_greedy && s.is_greedy)
    ∧ (∀ b, o.to_include = some b → (Tree.apply s o).to_include = some b)
    ∧ (o.to_include = none → (Tree.apply s o).to_include = s.to_include)
    ∧ (∀ b, o.to_exclude = some b → (Tree.apply s o).to_exclude = some b)
    ∧ (o.to_exclude = none → (Tree.apply s o).to_exclude = s.to_exclude) := by
  obtain ⟨i, e, g, cs⟩ := s
  obtain ⟨i', e', g', cs'⟩ := o
  refine ⟨?_, ?_, ?_, ?_, ?_, ?_⟩
  · rintro ⟨hg, ho⟩ k c hmem hk
    have hgg : g = true := hg
    have hgo : g' = false := ho
    subst hgg; subst hgo
    have happ : (Tree.apply (Tree.node i e true cs) (Tree.node i' e' false cs')).children
        = cs.map (strictifyChild (Tree.node i' e' false cs')) := rfl
    have h2 := List.mem_map_of_mem (strictifyChild (Tree.node i' e' false cs')) hmem
    constructor
    · intro hc
      have h3 : strictifyChild (Tree.node i' e' false cs') (k, c) = (k, c) := by
        simp [strictifyChild, hk, hc]
      rw [happ]
      rwa [h3] at h2
    · intro hc
      have hne : c.children.isEmpty = false := by
        cases hcc : c.children with
        | nil => exact absurd hcc hc
        | cons a l => rfl
      have h3 : strictifyChild (Tree.node i' e' false cs') (k, c) = (k, c.to_strict) := by
        simp [strictifyChild, hk, hne]
      rw [happ]
      rwa [h3] at h2
  · simp [Tree.apply, Tree.is_greedy]
  · intro b hb
    have hb' : i' = some b := hb
    subst hb'
    simp [Tree.apply, Tree.to_include]
  · intro hb
    have hb' : i' = none := hb
    subst hb'
    simp [Tree.apply, Tree.to_include]
  · intro b hb
    have hb' : e' = some b := hb
    subst hb'
    simp [Tree.apply, Tree.to_exclude]
  · intro hb
    have hb' : e' = none := hb
    subst hb'
    simp [Tree.apply, Tree.to_exclude]

/-- Witness for `c4_apply_merge` at `c4s` / `c4o`: the childless child `z`
survives unchanged, the non-empty child `x` is forced strict, the merged
root is strict, and the argument's `to_include` overwrites. -/
theorem c4_apply_merge_witness :
    (("z".toList), Tree.empty) ∈ (Tree.apply c4s c4o).children
    ∧ (("x".toList), (Tree.node none none true [(("y".toList), Tree.empty)]).to_strict)
        ∈ (Tree.apply c4s c4o).children
    ∧ (Tree.apply c4s c4o).is_greedy = (c4o.is_greedy && c4s.is_greedy)
    ∧ (Tree.apply c4s c4o).to_include = some true := by
  have h := c4_apply_merge c4s c4o
  have h1 := h.1 ⟨rfl, rfl⟩
  refine ⟨?_, ?_, h.2.1, h.2.2.1 true rfl⟩
  · exact (h1 ("z".toList) Tree.empty (List.Mem.tail _ (List.Mem.head _)) rfl).1 rfl
  · exact (h1 ("x".toList) (Tree.node none none true [(("y".toList), Tree.empty)])
      (List.Mem.head _) rfl).2 (List.cons_ne_nil _ _)

/-- C7, counterexample: the rule text `"a-b"` does not round-trip — the
parser removes every occurrence of the negation character (`str.replace`),
not only a leading one, so re-joining the parsed segments yields `"ab"`. -/
theorem c7_counterexample :
    Rule.render (Rule.parse ("a-b".toList)) ≠ ("a-b".toList) := by decide

/-- C7, amended: for every non-empty rule text in which the negation
character occurs nowhere except possibly as the leading character, parsing
round-trips: re-joining the parsed segments with the delimiter and
re-prefixing the negation character (if negative) reproduces the text. -/
theorem c7_roundtrip (t : List Char) (hne : t ≠ [])
    (hin : NEGATION ∉ t.drop 1) :
    Rule.render (Rule.parse t) = t := by
  cases t with
  | nil => exact absurd rfl hne
  | cons c cs =>
      simp only [List.drop_succ_cons, List.drop_zero] at hin
      have hall : ∀ a ∈ cs, (decide (a ≠ NEGATION)) = true := by
        intro a ha
        have : a ≠ NEGATION := fun hEq => hin (hEq ▸ ha)
        simp [this]
      have hfil : List.filter (fun c => decide (c ≠ NEGATION)) cs = cs :=
        List.filter_eq_self.mpr hall
      by_cases hc : c = NEGATION
      · subst hc
        simp only [Rule.parse, Rule.render]
        simp only [List.filter_cons, hfil]
        simp [List.intercalate_splitOn]
      · simp only [Rule.parse, Rule.render]
        simp only [List.filter_cons, hfil]
        simp [hc, List.intercalate_splitOn]

/-- Witness for `c7_roundtrip` at the negated nested rule `"-a.b"`. -/
theorem c7_roundtrip_witness :
    Rule.render (Rule.parse ("-a.b".toList)) = ("-a.b".toList) :=
  c7_roundtrip ("-a.b".toList) (by decide) (by decide)

unseal merge_trees mergeChildren in
/-- C8, counterexample: the `Rule` of `lib/schema.py` accepts empty text
silently — it parses to a non-negative rule with a single empty segment,
and `update(only=("",))` ingests it, making the empty key included. -/
theorem c8_counterexample :
    (Rule.parse ([] : List Char)).keys = [[]]
    ∧ (Rule.parse ([] : List Char)).is_negative = false
    ∧ (exEmptyRule.children.lookup ([] : Key)).isSome = true
    ∧ (Schema.is_included exEmptyRule ([] : Key)).1 = true := by decide

/-- C8, amended: the `Rule` of `serializer.py` fails fast on empty rule text
and accepts any non-empty text, while the `Rule` of `lib/schema.py` accepts
empty text, parsing it to a single empty segment. -/
theorem c8_empty_rule_text :
    RS.mkRule ([] : RS.RText) = .error ()
    ∧ (∀ t : RS.RText, t ≠ [] → RS.mkRule t = .ok t)
    ∧ (Rule.parse ([] : List Char)).keys = [[]] := by
  refine ⟨rfl, ?_, rfl⟩
  intro t ht
  cases t with
  | nil => exact absurd rfl ht
  | cons c cs => rfl

/-- Witness for `c8_empty_rule_text` at the one-character rule `"a"`. -/
theorem c8_empty_rule_text_witness :
    RS.mkRule ([] : RS.RText) = .error ()
    ∧ RS.mkRule ("a".toList) = .ok ("a".toList)
    ∧ (Rule.parse ([] : List Char)).keys = [[]] :=
  ⟨c8_empty_rule_text.1, c8_empty_rule_text.2.1 ("a".toList) (by decide),
   c8_empty_rule_text.2.2⟩

/-- C9, counterexample: `fork` on a missing key is not non-mutating — on the
empty tree, forking at `"a"` inserts a fresh empty child node under `"a"`
into the root's children map (`defaultdict` auto-vivification). -/
theorem c9_counterexample :
    ((Schema.fork Tree.empty ("a".toList)).2).children
      = [(("a".toList), Tree.empty)]
    ∧ Tree.empty.children = [] := ⟨rfl, rfl⟩

/-- C9, amended: `is_included` never mutates the tree (for any key, present
or absent), and `fork` leaves the tree unchanged whenever a child node
exists at the key; only `fork` on a missing key inserts a node. -/
theorem c9_read_frame (t : Tree) (k : Key) :
    (Schema.is_included t k).2 = t
    ∧ ((t.children.lookup k).isSome = true → (Schema.fork t k).2 = t) := by
  constructor
  · by_cases hg : t.is_greedy <;>
      cases hl : t.children.lookup k <;>
      simp [Schema.is_included, Tree.get, hg, hl]
  · intro h
    cases hl : t.children.lookup k with
    | none => rw [hl] at h; simp at h
    | some c => simp [Schema.fork, Tree.getItem, hl]

/-- Witness for `c9_read_frame` at a tree with one existing child. -/
theorem c9_read_frame_witness :
    (Schema.is_included c9tree ("b".toList)).2 = c9tree
    ∧ (Schema.fork c9tree ("a".toList)).2 = c9tree :=
  ⟨(c9_read_frame c9tree ("b".toList)).1,
   (c9_read_frame c9tree ("a".toList)).2 rfl⟩

unseal RS.serializeCall RS.callBody RS.forkSer RS.serialize_iter RS.serialize_dict RS.serialize_model in
/-- C5, counterexample: an unserializable value under a key of a mapping is
not caught and skipped — `serialize_dict` has no `try`/`except`, so the
typed error propagates and the rest of the mapping is not produced. -/
theorem c5_counterexample :
    RS.serializeCall RS.defaultOpts [] [] (.pdict [(("k".toList), .pbad)])
      = .error .notSerializable := rfl

/-- C5, amended: a value matching no supported kind raises the typed
`IsNotSerializable` error; serialization of a general iterable catches it
per element and skips that element (the rest of the list is still
produced); serialization of a mapping does not catch it — the error
propagates from an included key's value, exactly as it propagates at the
top-level serialization call. -/
theorem c5_error_flow :
    (∀ opts, RS.serializeCall opts [] [] .pbad = .error .notSerializable)
    ∧ (∀ opts sch pres posts,
        RS.forkSer opts sch none .pbad = .error .notSerializable →
        RS.serialize_iter opts sch (pres ++ .pbad :: posts)
          = RS.serialize_iter opts sch (pres ++ posts))
    ∧ (∀ opts sch k rest, RS.Schema.is_valid sch k = true →
        RS.forkSer opts sch (some k) .pbad = .error .notSerializable →
        RS.serialize_dict opts sch ((k, .pbad) :: rest)
          = .error .notSerializable) := by
  refine ⟨?_, ?_, ?_⟩
  · intro opts
    simp only [RS.serializeCall, RS.schemaInit, RS.update_tree, RS.callBody]
    rfl
  · intro opts sch pres posts hfork
    induction pres with
    | nil => simp [RS.serialize_iter, hfork]
    | cons x rest ih =>
        simp only [List.cons_append, RS.serialize_iter]
        rw [ih]
  · intro opts sch k rest hv hfork
    simp [RS.serialize_dict, hv, hfork]

unseal RS.serializeCall RS.callBody RS.forkSer RS.serialize_iter RS.serialize_dict RS.serialize_model in
/-- Witness for `c5_error_flow` with the fresh greedy schema. -/
theorem c5_error_flow_witness :
    RS.serializeCall RS.defaultOpts [] [] .pbad = .error .notSerializable
    ∧ RS.serialize_iter RS.defaultOpts RS.freshSchema
        ([.prim (.pint 1)] ++ .pbad :: [.prim (.pint 2)])
        = RS.serialize_iter RS.defaultOpts RS.freshSchema
            ([.prim (.pint 1)] ++ [.prim (.pint 2)])
    ∧ RS.serialize_dict RS.defaultOpts RS.freshSchema [(("k".toList), .pbad)]
        = .error .notSerializable :=
  ⟨c5_error_flow.1 RS.defaultOpts,
   c5_error_flow.2.1 RS.defaultOpts RS.freshSchema [.prim (.pint 1)] [.prim (.pint 2)] rfl,
   c5_error_flow.2.2 RS.defaultOpts RS.freshSchema ("k".toList) [] rfl rfl⟩

/-- C6: when the traversal driver reaches a record, the record's declared
default rule sets are merged into the current schema exactly when the
schema is greedy; under a strict schema the defaults are replaced by empty
tuples, and `Schema.merge` with two empty rule sets leaves the schema
unchanged. -/
theorem c6_model_defaults (s : RS.Schema) (o e : List RS.RText) :
    RS.modelMergeStep s o e
      = if s.is_greedy then RS.Schema.merge s o e else .ok s := by
  by_cases hg : s.is_greedy
  · simp [RS.modelMergeStep, hg]
  · simp [RS.modelMergeStep, hg, RS.Schema.merge]

/-- C10 (spec-modelled): serializing an unboundedly self-referential record
under a configured maximum depth always terminates; with maximum depth `0`
the relation key is omitted entirely, and with maximum depth `N` the output
contains exactly `N` levels of nesting, the `(N+1)`-th being omitted. -/
theorem c10_depth_limit (N : Nat) :
    nestingDepth (recSerialize N 0) = N
    ∧ recSerialize 0 0 = .leafObj := by
  have key : ∀ fuel maxd d, maxd - d = fuel →
      nestingDepth (recSerialize maxd d) = maxd - d := by
    intro fuel
    induction fuel with
    | zero =>
        intro maxd d h
        rw [recSerialize]
        have : ¬(d < maxd) := by omega
        simp [this, nestingDepth, h]
    | succ n ih =>
        intro maxd d h
        rw [recSerialize]
        have hlt : d < maxd := by omega
        have := ih maxd (d + 1) (by omega)
        simp [hlt, nestingDepth, this]
        omega
  refine ⟨?_, ?_⟩
  · have := key N N 0 (by omega)
    simpa using this
  · rw [recSerialize]
    simp

end SAS
